import Mathlib

/-!
Shallow embedding of the markdown rendering pipeline of rnotes
(src/markdown.rs): the event-fold parser `parse_markdown`, the word
wrapper `wrap_text_with_inline_formatting`, and the element renderer
`render_to_text`, together with proofs settling the frozen claims.

Rust strings are modelled as Lean `String` values and all string
primitives used by the source (trim, trim_end, lines, split_whitespace,
starts_with, ends_with, byte-range slicing on ASCII markers) are defined
charwise below, mirroring their Rust semantics on the inputs in scope.
Rust `usize` lengths are modelled as `Nat` character counts.

The event stream that pulldown-cmark feeds to `parse_markdown` is not
part of this repository; concrete event lists for the claimed inputs are
modelled from pulldown-cmark's documented event structure and are marked
as such in their doc comments.
-/

/-- Charwise model of Rust `str::is_empty`. -/
def strIsEmpty (s : String) : Bool := s.data.isEmpty

/-- Charwise model of Rust `str::trim` (strip leading and trailing whitespace). -/
def rustTrim (s : String) : String :=
  ⟨((s.data.dropWhile Char.isWhitespace).reverse.dropWhile Char.isWhitespace).reverse⟩

/-- Charwise model of Rust `str::trim_end` (strip trailing whitespace). -/
def rustTrimEnd (s : String) : String :=
  ⟨(s.data.reverse.dropWhile Char.isWhitespace).reverse⟩

/-- Strip one trailing carriage return, as Rust `str::lines` does on lines
terminated by a line feed. -/
def stripCR (l : List Char) : List Char :=
  if l.getLast? = some '\r' then l.dropLast else l

/-- Accumulator recursion behind `rustLines`. -/
def linesAux : List Char → List Char → List String
  | [], acc => if acc.isEmpty then [] else [⟨acc.reverse⟩]
  | c :: rest, acc =>
    if c = '\n' then (⟨stripCR acc.reverse⟩ : String) :: linesAux rest []
    else linesAux rest (c :: acc)

/-- Charwise model of Rust `str::lines`: split at line feeds, drop a final
empty segment produced by a trailing line feed. -/
def rustLines (s : String) : List String := linesAux s.data []

/-- Accumulator recursion behind `splitWhitespace`. -/
def splitWSAux : List Char → List Char → List String
  | [], acc => if acc.isEmpty then [] else [⟨acc.reverse⟩]
  | c :: rest, acc =>
    if c.isWhitespace then
      if acc.isEmpty then splitWSAux rest []
      else (⟨acc.reverse⟩ : String) :: splitWSAux rest []
    else splitWSAux rest (c :: acc)

/-- Charwise model of Rust `str::split_whitespace`: the maximal nonempty
runs of non-whitespace characters, in order. -/
def splitWhitespace (s : String) : List String := splitWSAux s.data []

/-- Accumulator recursion behind `containsSub`. -/
def containsSubAux (pat : List Char) : List Char → Bool
  | [] => pat.isEmpty
  | c :: rest => pat.isPrefixOf (c :: rest) || containsSubAux pat rest

/-- Model of Rust `str::contains` for literal patterns. -/
def containsSub (s pat : String) : Bool := containsSubAux pat.data s.data

/-- Model of Rust `str::starts_with` for literal patterns. -/
def strStartsWith (s pat : String) : Bool := pat.data.isPrefixOf s.data

/-- Model of Rust `str::ends_with` for literal patterns. -/
def strEndsWith (s pat : String) : Bool := pat.data.isSuffixOf s.data

/-- Model of the Rust slice `&word[d..word.len()-e]` on the ASCII marker
words it is applied to: drop `d` characters, keep the next `t`. -/
def strDropTake (s : String) (d t : Nat) : String := ⟨(s.data.drop d).take t⟩

/-- Left-justify pad with spaces to `n` characters, as Rust `format!`
with a `<width` directive (never truncates). -/
def padRightTo (s : String) (n : Nat) : String :=
  s ++ ⟨List.replicate (n - s.length) ' '⟩

/-- The backquote character, used by the inline-code marker checks. -/
def bqChar : Char := Char.ofNat 96

/-- A one-character backquote string. -/
def bq : String := ⟨[bqChar]⟩

/-- The ratatui colors used by src/markdown.rs. -/
inductive Color
  | Red | Yellow | Green | Blue | Magenta | Cyan | DarkGray | Gray | White | Black
deriving DecidableEq, Repr

/-- A ratatui `Style`: foreground, background, and the three modifiers the
source uses (BOLD, ITALIC, UNDERLINED). -/
structure Style where
  fg : Option Color
  bg : Option Color
  bold : Bool
  italic : Bool
  underlined : Bool
deriving DecidableEq, Repr

/-- `Style::default()`. -/
def Style.plain : Style := ⟨none, none, false, false, false⟩

/-- A ratatui `Span`: a run of text with one style. -/
structure Span where
  text : String
  style : Style
deriving DecidableEq, Repr

/-- `Span::raw`. -/
def Span.raw (s : String) : Span := ⟨s, Style.plain⟩

/-- A ratatui `Line`: an ordered sequence of spans forming one terminal row. -/
abbrev Line := List Span

/-- `Line::from("")`: a line holding a single empty raw span. -/
def blankLine : Line := [Span.raw ""]

/-- Rendered character length of a line: the total length of its span texts. -/
def lineLen (l : Line) : Nat := (l.map (fun sp => sp.text.length)).sum

/-- Concatenated text of a line. -/
def lineText (l : Line) : String := l.foldl (fun acc sp => acc ++ sp.text) ""

/-- `TableAlignment` from src/markdown.rs. -/
inductive TableAlignment
  | Left | Center | Right | None
deriving DecidableEq, Repr

/-- `MarkdownElement` from src/markdown.rs. -/
inductive MarkdownElement
  | Heading (level : Nat) (text : String)
  | Paragraph (text : String)
  | CodeBlock (language : Option String) (code : String)
  | InlineCode (text : String)
  | Link (text : String) (url : String)
  | Bold (text : String)
  | Italic (text : String)
  | List (items : List String) (ordered : Bool)
  | BlockQuote (text : String)
  | Rule
  | Text (text : String)
  | Table (headers : List String) (rows : List (List String))
      (alignments : List TableAlignment)
deriving DecidableEq, Repr

/-- pulldown-cmark `CodeBlockKind`. -/
inductive CodeBlockKind
  | Fenced (lang : String)
  | Indented
deriving DecidableEq, Repr

/-- pulldown-cmark `Alignment` for table columns. -/
inductive CmAlignment
  | None | Left | Center | Right
deriving DecidableEq, Repr

/-- The pulldown-cmark start tags that src/markdown.rs matches on;
`Other` stands for every tag the source ignores in its catch-all arm. -/
inductive Tag
  | Heading (level : Nat)
  | Paragraph
  | CodeBlock (kind : CodeBlockKind)
  | Strong
  | Emphasis
  | Link (destUrl : String)
  | BlockQuote
  | List (start : Option Nat)
  | Item
  | Table (alignments : List CmAlignment)
  | TableHead
  | TableRow
  | TableCell
  | Other
deriving DecidableEq, Repr

/-- The pulldown-cmark end tags that src/markdown.rs matches on. -/
inductive TagEnd
  | Heading
  | Paragraph
  | CodeBlock
  | Strong
  | Emphasis
  | Link
  | BlockQuote
  | List
  | Item
  | Table
  | TableHead
  | TableRow
  | TableCell
  | Other
deriving DecidableEq, Repr

/-- The pulldown-cmark events that src/markdown.rs matches on; `Other`
stands for every event the source ignores in its catch-all arm. -/
inductive Event
  | Start (tag : Tag)
  | End (te : TagEnd)
  | Text (s : String)
  | Code (s : String)
  | Rule
  | Other
deriving DecidableEq, Repr

/-- The mutable local state of `parse_markdown` in src/markdown.rs,
lines 57 to 77. -/
structure ParseState where
  elements : List MarkdownElement
  current_text : String
  in_heading : Option Nat
  in_paragraph : Bool
  in_code_block : Bool
  code_lang : Option String
  in_bold : Bool
  in_italic : Bool
  in_link : Bool
  link_url : String
  in_blockquote : Bool
  list_items : List String
  in_list : Bool
  is_ordered_list : Bool
  in_table : Bool
  table_headers : List String
  table_rows : List (List String)
  current_row : List String
  table_alignments : List TableAlignment
deriving Repr

/-- The initial parser state (all buffers empty, all flags clear). -/
def initParseState : ParseState :=
  ⟨[], "", none, false, false, none, false, false, false, "", false, [],
    false, false, false, [], [], [], []⟩

/-- The alignment conversion at src/markdown.rs lines 126 to 131
(`Alignment::None` maps to `TableAlignment::Left`). -/
def alignmentOf : CmAlignment → TableAlignment
  | .Left => .Left
  | .Center => .Center
  | .Right => .Right
  | .None => .Left

/-- One iteration of the event loop of `parse_markdown`
(src/markdown.rs lines 79 to 260), translated arm by arm. -/
def processEvent (st : ParseState) : Event → ParseState
  | .Start tag =>
    match tag with
    | .Heading level =>
      let st :=
        if st.in_paragraph then
          { st with elements := st.elements ++ [.Paragraph (rustTrim st.current_text)],
                    current_text := "", in_paragraph := false }
        else st
      { st with in_heading := some level }
    | .Paragraph =>
      if ¬st.in_list ∧ ¬st.in_blockquote then
        if ¬containsSub st.current_text "__TABLE__" then
          { st with in_paragraph := true }
        else st
      else st
    | .CodeBlock kind =>
      { st with in_code_block := true,
                code_lang :=
                  match kind with
                  | .Fenced lang => if strIsEmpty lang then none else some lang
                  | .Indented => none }
    | .Strong => { st with in_bold := true }
    | .Emphasis => { st with in_italic := true }
    | .Link destUrl => { st with in_link := true, link_url := destUrl }
    | .BlockQuote => { st with in_blockquote := true }
    | .List start =>
      { st with in_list := true, is_ordered_list := start.isSome, list_items := [] }
    | .Item => st
    | .Table aligns =>
      { st with in_table := true,
                table_alignments := aligns.map alignmentOf,
                table_headers := [], table_rows := [] }
    | .TableHead => st
    | .TableRow => { st with current_row := [] }
    | .TableCell => st
    | .Other => st
  | .End te =>
    match te with
    | .Heading =>
      match st.in_heading with
      | some h =>
        { st with elements := st.elements ++ [.Heading h (rustTrim st.current_text)],
                  current_text := "", in_heading := none }
      | none => st
    | .Paragraph =>
      if st.in_paragraph then
        { st with elements := st.elements ++ [.Paragraph (rustTrim st.current_text)],
                  current_text := "", in_paragraph := false }
      else if st.in_list ∧ strIsEmpty (rustTrim st.current_text) = false then
        { st with list_items := st.list_items ++ [rustTrim st.current_text],
                  current_text := "" }
      else if st.in_blockquote then
        { st with elements := st.elements ++ [.BlockQuote (rustTrim st.current_text)],
                  current_text := "" }
      else st
    | .CodeBlock =>
      { st with elements := st.elements ++ [.CodeBlock st.code_lang (rustTrimEnd st.current_text)],
                current_text := "", in_code_block := false, code_lang := none }
    | .Strong => { st with in_bold := false }
    | .Emphasis => { st with in_italic := false }
    | .Link =>
      { st with elements := st.elements ++ [.Link st.current_text st.link_url],
                current_text := "", in_link := false, link_url := "" }
    | .BlockQuote => { st with in_blockquote := false }
    | .List =>
      let st :=
        if st.list_items ≠ [] then
          { st with elements := st.elements ++ [.List st.list_items st.is_ordered_list],
                    list_items := [] }
        else st
      { st with in_list := false }
    | .Item =>
      if strIsEmpty (rustTrim st.current_text) = false then
        { st with list_items := st.list_items ++ [rustTrim st.current_text],
                  current_text := "" }
      else st
    | .Table =>
      if st.in_table then
        { st with elements := st.elements ++
                    [.Table st.table_headers st.table_rows st.table_alignments],
                  in_table := false }
      else st
    | .TableHead => st
    | .TableRow =>
      if st.in_table then
        if st.table_headers = [] then { st with table_headers := st.current_row }
        else { st with table_rows := st.table_rows ++ [st.current_row] }
      else st
    | .TableCell =>
      if st.in_table then
        { st with current_row := st.current_row ++ [rustTrim st.current_text],
                  current_text := "" }
      else st
    | .Other => st
  | .Text s => { st with current_text := st.current_text ++ s }
  | .Code s =>
    if ¬st.in_code_block then
      { st with elements := st.elements ++ [.InlineCode s] }
    else { st with current_text := st.current_text ++ s }
  | .Rule => { st with elements := st.elements ++ [.Rule] }
  | .Other => st

/-- `MarkdownRenderer::parse_markdown` (src/markdown.rs lines 50 to 276)
as a fold over the pulldown-cmark event stream, including the final
flush of residual text and the unconditional `Ok` return. -/
def parse_markdown (events : List Event) : Except String (List MarkdownElement) :=
  let st := events.foldl processEvent initParseState
  let els :=
    if strIsEmpty (rustTrim st.current_text) = false then
      if st.in_paragraph then
        st.elements ++ [.Paragraph (rustTrim st.current_text)]
      else if ¬st.in_list then
        st.elements ++ [.Text (rustTrim st.current_text)]
      else st.elements
    else st.elements
  .ok els

/-- The style constants used by the renderer. -/
def darkGrayStyle : Style := ⟨some Color.DarkGray, none, false, false, false⟩

/-- Foreground yellow, as used for code-fence language labels and list bullets. -/
def yellowStyle : Style := ⟨some Color.Yellow, none, false, false, false⟩

/-- Green on black, as used for code content and inline code. -/
def inlineCodeStyle : Style := ⟨some Color.Green, some Color.Black, false, false, false⟩

/-- Blue underlined, as used for links. -/
def linkStyle : Style := ⟨some Color.Blue, none, false, false, true⟩

/-- Foreground blue, as used for the blockquote bar glyph. -/
def blueStyle : Style := ⟨some Color.Blue, none, false, false, false⟩

/-- Gray italic, as used for blockquote text. -/
def quoteTextStyle : Style := ⟨some Color.Gray, none, false, true, false⟩

/-- Foreground cyan, as used for table borders. -/
def cyanStyle : Style := ⟨some Color.Cyan, none, false, false, false⟩

/-- Yellow bold, as used for table header cells. -/
def tableHeaderStyle : Style := ⟨some Color.Yellow, none, true, false, false⟩

/-- Foreground white, as used for table data cells. -/
def whiteStyle : Style := ⟨some Color.White, none, false, false, false⟩

/-- Bold with default colors, as produced for starred inline words. -/
def boldStyle : Style := ⟨none, none, true, false, false⟩

/-- Italic with default colors, as produced for single-starred inline words. -/
def italicStyle : Style := ⟨none, none, false, true, false⟩

/-- The level-dependent heading style match of src/markdown.rs lines 471 to 490. -/
def headingStyle : Nat → Style
  | 1 => ⟨some Color.Red, none, true, false, true⟩
  | 2 => ⟨some Color.Yellow, none, true, false, false⟩
  | 3 => ⟨some Color.Green, none, true, false, false⟩
  | 4 => ⟨some Color.Blue, none, true, false, false⟩
  | 5 => ⟨some Color.Magenta, none, true, false, false⟩
  | _ => ⟨some Color.Cyan, none, true, false, false⟩

/-- The per-word inline-marker inspection inside
`wrap_text_with_inline_formatting` (src/markdown.rs lines 681 to 705). -/
def formatWord (word : String) : Span :=
  if strStartsWith word "**" = true ∧ strEndsWith word "**" = true ∧ 4 < word.length then
    ⟨strDropTake word 2 (word.length - 4), boldStyle⟩
  else if strStartsWith word "*" = true ∧ strEndsWith word "*" = true ∧ 2 < word.length then
    ⟨strDropTake word 1 (word.length - 2), italicStyle⟩
  else if strStartsWith word bq = true ∧ strEndsWith word bq = true ∧ 2 < word.length then
    ⟨strDropTake word 1 (word.length - 2), inlineCodeStyle⟩
  else Span.raw word

/-- The mutable local state of the word-wrap loop: flushed lines, the
line being built, and its accumulated character length. -/
structure WrapState where
  lines : List Line
  current_line : List Span
  current_length : Nat
deriving Repr

/-- First stage of the word loop (src/markdown.rs lines 670 to 674): when
the word of length `wl` would make the current line exceed the width and
the current line is nonempty, flush it and start a fresh empty line. -/
def wrapFlush (width : Nat) (st : WrapState) (wl : Nat) : WrapState :=
  if width < st.current_length + wl + 1 ∧ st.current_line ≠ [] then
    ⟨st.lines ++ [st.current_line], [], 0⟩
  else st

/-- Second stage of the word loop (src/markdown.rs lines 676 to 679):
append a single separating space to a nonempty current line. -/
def wrapSpace (st : WrapState) : WrapState :=
  if st.current_line ≠ [] then
    ⟨st.lines, st.current_line ++ [Span.raw " "], st.current_length + 1⟩
  else st

/-- Third stage of the word loop (src/markdown.rs lines 681 to 707):
append the formatted word span and add the word length to the tracked
line length. -/
def wrapPush (st : WrapState) (sp : Span) (wl : Nat) : WrapState :=
  ⟨st.lines, st.current_line ++ [sp], st.current_length + wl⟩

/-- One iteration of the word loop of `wrap_text_with_inline_formatting`
(src/markdown.rs lines 667 to 708): flush when the word would overflow,
insert a separating space, append the formatted word. -/
def wrapStep (width : Nat) (st : WrapState) (word : String) : WrapState :=
  wrapPush (wrapSpace (wrapFlush width st word.length)) (formatWord word) word.length

/-- `MarkdownRenderer::wrap_text_with_inline_formatting`
(src/markdown.rs lines 661 to 719). -/
def wrap_text_with_inline_formatting (text : String) (width : Nat) : List Line :=
  let st := (splitWhitespace text).foldl (wrapStep width) ⟨[], [], 0⟩
  let lines := if st.current_line ≠ [] then st.lines ++ [st.current_line] else st.lines
  if lines = [] then [[Span.raw ""]] else lines

/-- The table column-width computation of src/markdown.rs lines 583 to 592:
per header column, the maximum of the header length and every present
cell length, plus two. -/
def colWidths (headers : List String) (rows : List (List String)) : List Nat :=
  headers.enum.map (fun p =>
    (rows.foldl (fun m row =>
      match row.get? p.1 with
      | some cell => Nat.max m cell.length
      | none => m) p.2.length) + 2)

/-- A table border line (top, separator, or bottom): left corner, one dash
run per header column with a junction between columns, right corner.
Missing widths fall back to 10 as in the source. -/
def tableEdge (lc mc rc : String) (widths : List Nat) (n : Nat) : Line :=
  [⟨lc, cyanStyle⟩] ++
    ((List.range n).flatMap (fun i =>
      [⟨⟨List.replicate (Option.getD (widths.get? i) 10) '─'⟩, cyanStyle⟩] ++
        (if i < n - 1 then [⟨mc, cyanStyle⟩] else []))) ++
    [⟨rc, cyanStyle⟩]

/-- The table header row line of src/markdown.rs lines 607 to 614. -/
def tableHeaderLine (headers : List String) (widths : List Nat) : Line :=
  [⟨"│", cyanStyle⟩] ++
    headers.enum.flatMap (fun p =>
      [⟨" " ++ padRightTo p.2 (Option.getD (widths.get? p.1) 10 - 1), tableHeaderStyle⟩,
       ⟨"│", cyanStyle⟩])

/-- A table data row line of src/markdown.rs lines 629 to 639: one cell per
header column, missing cells rendered empty, extra cells dropped. -/
def tableDataLine (headers : List String) (widths : List Nat) (row : List String) : Line :=
  [⟨"│", cyanStyle⟩] ++
    headers.enum.flatMap (fun p =>
      [⟨" " ++ padRightTo (Option.getD (row.get? p.1) "") (Option.getD (widths.get? p.1) 10 - 1),
         whiteStyle⟩,
       ⟨"│", cyanStyle⟩])

/-- One arm of the element loop of `render_to_text`
(src/markdown.rs lines 463 to 656), appending the element's lines to the
lines emitted so far; the catch-all arm (hit by Bold and Italic) leaves
the output unchanged. -/
def renderElement (lines : List Line) : MarkdownElement → List Line
  | .Heading level text =>
    let lines := if lines.isEmpty then lines else lines ++ [blankLine]
    lines ++
      [[⟨(⟨List.replicate level '#'⟩ : String) ++ " ", darkGrayStyle⟩,
        ⟨text, headingStyle level⟩],
       blankLine]
  | .Paragraph text =>
    (lines ++ wrap_text_with_inline_formatting text 80) ++ [blankLine]
  | .CodeBlock language code =>
    let lines := if lines.isEmpty then lines else lines ++ [blankLine]
    let fence : Line :=
      match language with
      | some lang => [⟨"```", darkGrayStyle⟩, ⟨lang, yellowStyle⟩]
      | none => [⟨"```", darkGrayStyle⟩]
    lines ++ [fence] ++
      (rustLines code).map (fun ln => [⟨"  " ++ ln, inlineCodeStyle⟩]) ++
      [[⟨"```", darkGrayStyle⟩], blankLine]
  | .InlineCode text =>
    lines ++ [[⟨bq ++ text ++ bq, inlineCodeStyle⟩]]
  | .Link text _ =>
    lines ++ [[⟨"[" ++ text ++ "]", linkStyle⟩]]
  | .List items ordered =>
    lines ++
      items.enum.map (fun p =>
        [⟨(if ordered then toString (p.1 + 1) ++ ". " else "• "), yellowStyle⟩,
         Span.raw p.2]) ++
      [blankLine]
  | .BlockQuote text =>
    lines ++
      (rustLines text).map (fun ln => [⟨"▎ ", blueStyle⟩, ⟨ln, quoteTextStyle⟩]) ++
      [blankLine]
  | .Rule =>
    lines ++ [[⟨⟨List.replicate 60 '─'⟩, darkGrayStyle⟩], blankLine]
  | .Text text =>
    lines ++ wrap_text_with_inline_formatting text 80
  | .Table headers rows _ =>
    let lines := if lines.isEmpty then lines else lines ++ [blankLine]
    let widths := colWidths headers rows
    lines ++
      [tableEdge "┌" "┬" "┐" widths headers.length,
       tableHeaderLine headers widths,
       tableEdge "├" "┼" "┤" widths headers.length] ++
      rows.map (tableDataLine headers widths) ++
      [tableEdge "└" "┴" "┘" widths headers.length, blankLine]
  | .Bold _ => lines
  | .Italic _ => lines

/-- `MarkdownRenderer::render_to_text` (src/markdown.rs lines 460 to 659):
a fold of `renderElement` over the element sequence, starting from no
lines. The function takes no wrap-width argument; paragraphs and loose
text are wrapped at the fixed width 80 inside `renderElement`. -/
def render_to_text (elements : List MarkdownElement) : List Line :=
  elements.foldl renderElement []

/-- Modelled from pulldown-cmark: the event stream for the input
consisting of the fenced code block with language tag rust and body
let x = 1; (a fenced code block yields a start tag carrying the fence
language, the literal body as one text event, and an end tag). -/
def eventsCodeBlockRust : List Event :=
  [.Start (.CodeBlock (.Fenced "rust")), .Text "let x = 1;\n", .End .CodeBlock]

/-- Modelled from pulldown-cmark: the event stream for the three-line
table with header cells A and B, a dash separator, and one data row with
cells 1 and 2. Header cells arrive inside the TableHead tag without any
TableRow wrapper; only body rows are wrapped in TableRow tags. -/
def eventsTableAB : List Event :=
  [.Start (.Table [.None, .None]), .Start .TableHead,
   .Start .TableCell, .Text "A", .End .TableCell,
   .Start .TableCell, .Text "B", .End .TableCell,
   .End .TableHead,
   .Start .TableRow, .Start .TableCell, .Text "1", .End .TableCell,
   .Start .TableCell, .Text "2", .End .TableCell, .End .TableRow,
   .End .Table]

/-- Modelled from pulldown-cmark: the event stream for a paragraph that
holds some text followed by a link, as in the source text consisting of
the word before, a space, and a link with text bar and destination u. -/
def eventsLinkAfterText : List Event :=
  [.Start .Paragraph, .Text "before ", .Start (.Link "u"), .Text "bar",
   .End .Link, .End .Paragraph]

/-- Modelled from pulldown-cmark: the empty document produces no events. -/
def eventsEmptyInput : List Event := []

/-- A line is good for width W when its rendered length is within W, or it
is a single raw word (satisfying P) longer than W on a line of its own. -/
def goodLine (W : Nat) (P : String → Prop) (l : Line) : Prop :=
  lineLen l ≤ W ∨ ∃ w, P w ∧ l = [Span.raw w] ∧ W < w.length

/-- Invariant of the word-wrap loop: every flushed line is good, the empty
line has length zero, and a nonempty current line has its tracked length
and is good. -/
def WrapInv (W : Nat) (P : String → Prop) (st : WrapState) : Prop :=
  (∀ l ∈ st.lines, goodLine W P l) ∧
  (st.current_line = [] → st.current_length = 0) ∧
  (st.current_line ≠ [] → lineLen st.current_line = st.current_length ∧
    goodLine W P st.current_line)

lemma lineLen_append (l1 l2 : Line) : lineLen (l1 ++ l2) = lineLen l1 + lineLen l2 := by
  simp [lineLen]

lemma lineLen_raw (w : String) : lineLen [Span.raw w] = w.length := by
  simp [lineLen, Span.raw]

lemma mem_splitWSAux_chars : ∀ (l acc : List Char) (w : String),
    w ∈ splitWSAux l acc → ∀ c ∈ w.data, c ∈ l ∨ c ∈ acc := by
  intro l
  induction l with
  | nil =>
    intro acc w hw c hc
    by_cases hacc : acc.isEmpty
    · simp [splitWSAux, hacc] at hw
    · simp [splitWSAux, hacc] at hw
      subst hw
      right
      simpa using hc
  | cons c0 rest ih =>
    intro acc w hw c hc
    by_cases hws : c0.isWhitespace = true
    · by_cases hacc : acc.isEmpty
      · simp [splitWSAux, hws, hacc] at hw
        rcases ih [] w hw c hc with h | h
        · exact Or.inl (List.mem_cons_of_mem _ h)
        · simp at h
      · simp [splitWSAux, hws, hacc] at hw
        rcases hw with hw | hw
        · subst hw
          right
          simpa using hc
        · rcases ih [] w hw c hc with h | h
          · exact Or.inl (List.mem_cons_of_mem _ h)
          · simp at h
    · simp [splitWSAux, hws] at hw
      rcases ih _ w hw c hc with h | h
      · exact Or.inl (List.mem_cons_of_mem _ h)
      · rcases List.mem_cons.mp h with h | h
        · exact Or.inl (h ▸ List.mem_cons_self _ _)
        · exact Or.inr h

lemma splitWhitespace_chars (s w : String) (hw : w ∈ splitWhitespace s) :
    ∀ c ∈ w.data, c ∈ s.data := by
  intro c hc
  rcases mem_splitWSAux_chars s.data [] w hw c hc with h | h
  · exact h
  · simp at h

lemma notPrefix {c : Char} {cs l : List Char} (h : c ∉ l) :
    List.isPrefixOf (c :: cs) l = false := by
  cases l with
  | nil => rfl
  | cons x xs =>
    have hcx : (c == x) = false := by
      refine beq_eq_false_iff_ne.mpr ?_
      intro he
      exact h (he ▸ List.mem_cons_self x xs)
    simp [List.isPrefixOf, hcx]

lemma formatWord_markerFree (w : String) (hstar : '*' ∉ w.data) (hbq : bqChar ∉ w.data) :
    formatWord w = Span.raw w := by
  have h1 : strStartsWith w "**" = false := notPrefix hstar
  have h2 : strStartsWith w "*" = false := notPrefix hstar
  have h3 : strStartsWith w bq = false := notPrefix hbq
  simp [formatWord, h1, h2, h3]

lemma goodLine_single {W : Nat} {P : String → Prop} {w : String} (hw : P w) :
    goodLine W P [Span.raw w] := by
  unfold goodLine
  rw [lineLen_raw]
  by_cases h : w.length ≤ W
  · exact Or.inl h
  · exact Or.inr ⟨w, hw, rfl, by omega⟩

lemma wrapStep_inv {W : Nat} {P : String → Prop} {st : WrapState} {w : String}
    (hw : P w) (hfmt : formatWord w = Span.raw w) (hst : WrapInv W P st) :
    WrapInv W P (wrapStep W st w) := by
  obtain ⟨hlines, hempty, hcur⟩ := hst
  by_cases hflush : W < st.current_length + w.length + 1 ∧ st.current_line ≠ []
  · have e1 : wrapFlush W st w.length = ⟨st.lines ++ [st.current_line], [], 0⟩ := by
      unfold wrapFlush
      rw [if_pos hflush]
    have e2 : wrapSpace (⟨st.lines ++ [st.current_line], [], 0⟩ : WrapState) =
        ⟨st.lines ++ [st.current_line], [], 0⟩ := by
      unfold wrapSpace
      rw [if_neg (by simp)]
    unfold wrapStep
    rw [e1, e2]
    unfold wrapPush
    refine ⟨?_, ?_, ?_⟩
    · intro l hl
      rcases List.mem_append.mp hl with h | h
      · exact hlines l h
      · rw [List.mem_singleton.mp h]
        exact (hcur hflush.2).2
    · intro hc
      simp at hc
    · intro _
      constructor
      · simp [hfmt, lineLen_raw]
      · rw [hfmt]
        simpa using goodLine_single (W := W) hw
  · have e1 : wrapFlush W st w.length = st := by
      unfold wrapFlush
      rw [if_neg hflush]
    by_cases hcl : st.current_line = []
    · have e2 : wrapSpace st = st := by
        unfold wrapSpace
        rw [if_neg (not_not_intro hcl)]
      unfold wrapStep
      rw [e1, e2]
      unfold wrapPush
      rw [hcl, hempty hcl]
      refine ⟨hlines, ?_, ?_⟩
      · intro hc
        simp at hc
      · intro _
        constructor
        · simp [hfmt, lineLen_raw]
        · rw [hfmt]
          simpa using goodLine_single (W := W) hw
    · have e2 : wrapSpace st =
          ⟨st.lines, st.current_line ++ [Span.raw " "], st.current_length + 1⟩ := by
        unfold wrapSpace
        rw [if_pos hcl]
      have hle : st.current_length + w.length + 1 ≤ W := by
        rcases Nat.lt_or_ge W (st.current_length + w.length + 1) with h | h
        · exact absurd ⟨h, hcl⟩ hflush
        · omega
      obtain ⟨hL, _⟩ := hcur hcl
      unfold wrapStep
      rw [e1, e2]
      unfold wrapPush
      refine ⟨hlines, ?_, ?_⟩
      · intro hc
        simp at hc
      · intro _
        have hsp : lineLen ((st.current_line ++ [Span.raw " "]) ++ [formatWord w]) =
            st.current_length + 1 + w.length := by
          rw [hfmt, lineLen_append, lineLen_append, hL, lineLen_raw, lineLen_raw]
          have h1 : (" " : String).length = 1 := rfl
          omega
        constructor
        · rw [hsp]
        · left
          rw [hsp]
          omega

lemma wrap_foldl_inv {W : Nat} {P : String → Prop} :
    ∀ (ws : List String) (st : WrapState),
      (∀ w ∈ ws, P w ∧ formatWord w = Span.raw w) →
      WrapInv W P st → WrapInv W P (ws.foldl (wrapStep W) st)
  | [], _, _, hst => hst
  | w :: rest, st, hws, hst =>
    wrap_foldl_inv rest (wrapStep W st w)
      (fun x hx => hws x (List.mem_cons_of_mem _ hx))
      (wrapStep_inv (hws w (List.mem_cons_self w rest)).1
        (hws w (List.mem_cons_self w rest)).2 hst)

lemma wrap_final {W : Nat} {P : String → Prop} (text : String)
    (hinv : WrapInv W P ((splitWhitespace text).foldl (wrapStep W) ⟨[], [], 0⟩)) :
    ∀ line ∈ wrap_text_with_inline_formatting text W, goodLine W P line := by
  intro line hline
  obtain ⟨hlines, hempty, hcur⟩ := hinv
  simp only [wrap_text_with_inline_formatting] at hline
  by_cases hcl : ((splitWhitespace text).foldl (wrapStep W) ⟨[], [], 0⟩).current_line = []
  · rw [if_neg (not_not_intro hcl)] at hline
    split at hline
    · rw [List.mem_singleton.mp hline]
      unfold goodLine
      rw [lineLen_raw]
      left
      simp [String.length]
    · exact hlines line hline
  · rw [if_pos hcl] at hline
    rw [if_neg (by simp)] at hline
    rcases List.mem_append.mp hline with h | h
    · exact hlines line h
    · rw [List.mem_singleton.mp h]
      exact (hcur hcl).2

/-- Claim C1: wrapping text that contains none of the inline marker
characters at width W produces only lines of rendered character length at
most W, except that a single whitespace-delimited word longer than W
occupies a line of its own. -/
theorem C1_wrap_no_overflow (text : String) (W : Nat)
    (h : ∀ c ∈ text.data, c ≠ '*' ∧ c ≠ bqChar) :
    ∀ line ∈ wrap_text_with_inline_formatting text W,
      lineLen line ≤ W ∨
        ∃ w, w ∈ splitWhitespace text ∧ line = [Span.raw w] ∧ W < w.length := by
  have hfmtall : ∀ w ∈ splitWhitespace text,
      (w ∈ splitWhitespace text) ∧ formatWord w = Span.raw w := by
    intro w hwmem
    refine ⟨hwmem, formatWord_markerFree w ?_ ?_⟩
    · intro hc
      exact (h '*' (splitWhitespace_chars text w hwmem _ hc)).1 rfl
    · intro hc
      exact (h bqChar (splitWhitespace_chars text w hwmem _ hc)).2 rfl
  have hinv := wrap_foldl_inv (W := W) (P := fun w => w ∈ splitWhitespace text)
      (splitWhitespace text) ⟨[], [], 0⟩ hfmtall
      ⟨fun l hl => absurd hl (List.not_mem_nil l), fun _ => rfl, fun hc => absurd rfl hc⟩
  exact wrap_final text hinv

/-- Witness for claim C1 at a concrete input. -/
theorem C1_witness :
    lineLen [Span.raw "hello"] ≤ 5 ∨
      ∃ w, w ∈ splitWhitespace "hello world" ∧
        ([Span.raw "hello"] : Line) = [Span.raw w] ∧ 5 < w.length :=
  C1_wrap_no_overflow "hello world" 5 (by decide) [Span.raw "hello"] (by decide)

/-- Claim C7: for every event stream the parse operation returns its Ok
value; the error channel is never used. -/
theorem C7_parse_total : ∀ events : List Event, ∃ els, parse_markdown events = Except.ok els :=
  fun _ => ⟨_, rfl⟩

/-- Claim C9: parsing the empty input yields no elements and rendering an
empty element sequence yields no lines. -/
theorem C9_empty_roundtrip :
    parse_markdown eventsEmptyInput = Except.ok [] ∧ render_to_text [] = [] := ⟨rfl, rfl⟩

/-- Claim C2: the fenced rust code block parses to a single CodeBlock
element with language rust and body let x = 1;, and rendering it as the
first element produces exactly four lines: the fence line with language
label, one two-space-indented code line, the closing fence line, and a
following blank line. -/
theorem C2_codeblock_roundtrip :
    parse_markdown eventsCodeBlockRust = Except.ok [.CodeBlock (some "rust") "let x = 1;"] ∧
    render_to_text [.CodeBlock (some "rust") "let x = 1;"] =
      [[⟨"```", darkGrayStyle⟩, ⟨"rust", yellowStyle⟩],
       [⟨"  let x = 1;", inlineCodeStyle⟩],
       [⟨"```", darkGrayStyle⟩],
       blankLine] := ⟨rfl, rfl⟩

/-- Claim C3 evaluated on the code: the three-line table parses to a Table
whose headers are the DATA row cells 1 and 2 and whose row list is empty
(not headers A and B with one data row, as the claim states), and its
rendering has four content lines (top border, header row, separator,
bottom border) plus a trailing blank, not five content lines. -/
theorem C3_code_eval :
    parse_markdown eventsTableAB = Except.ok [.Table ["1", "2"] [] [.Left, .Left]] ∧
    (["1", "2"] : List String) ≠ ["A", "B"] ∧
    render_to_text [.Table ["1", "2"] [] [.Left, .Left]] =
      [[⟨"┌", cyanStyle⟩, ⟨"───", cyanStyle⟩, ⟨"┬", cyanStyle⟩, ⟨"───", cyanStyle⟩, ⟨"┐", cyanStyle⟩],
       [⟨"│", cyanStyle⟩, ⟨" 1 ", tableHeaderStyle⟩, ⟨"│", cyanStyle⟩, ⟨" 2 ", tableHeaderStyle⟩, ⟨"│", cyanStyle⟩],
       [⟨"├", cyanStyle⟩, ⟨"───", cyanStyle⟩, ⟨"┼", cyanStyle⟩, ⟨"───", cyanStyle⟩, ⟨"┤", cyanStyle⟩],
       [⟨"└", cyanStyle⟩, ⟨"───", cyanStyle⟩, ⟨"┴", cyanStyle⟩, ⟨"───", cyanStyle⟩, ⟨"┘", cyanStyle⟩],
       blankLine] := ⟨rfl, by decide, rfl⟩

/-- Claim C4: a single whitespace-delimited word wholly wrapped in double
stars with length above four is emitted as one bold span with the markers
stripped, and the two-token emphasis input is not recognized: both tokens
come out as raw unstyled spans. -/
theorem C4_inline_emphasis :
    (∀ w : String, strStartsWith w "**" = true → strEndsWith w "**" = true → 4 < w.length →
        formatWord w = ⟨strDropTake w 2 (w.length - 4), boldStyle⟩) ∧
    wrap_text_with_inline_formatting "**bold**" 80 = [[⟨"bold", boldStyle⟩]] ∧
    wrap_text_with_inline_formatting "**bold words**" 80 =
      [[Span.raw "**bold", Span.raw " ", Span.raw "words**"]] := by
  refine ⟨?_, rfl, rfl⟩
  intro w h1 h2 h3
  simp [formatWord, h1, h2, h3]

/-- Witness for claim C4 at the concrete word of the claim. -/
theorem C4_witness :
    formatWord "**bold**" = ⟨strDropTake "**bold**" 2 ("**bold**".length - 4), boldStyle⟩ :=
  C4_inline_emphasis.1 "**bold**" (by decide) (by decide) (by decide)

/-- Counterexample to claim C5 as stated: in a paragraph holding text
before a link, the element emitted at the link end token carries ALL text
accumulated since the buffer was last cleared, not only the text
accumulated since the link start token (which would be bar). -/
theorem C5_counterexample :
    parse_markdown eventsLinkAfterText =
      Except.ok [.Link "before bar" "u", .Paragraph ""] ∧
    ("before bar" : String) ≠ "bar" := ⟨rfl, by decide⟩

/-- Claim C5 as amended: reaching a link end token emits a Link element
whose text is the entire accumulated text buffer (which may include text
from before the link start token) and whose url is the stored link
destination, then clears the buffer; the link start token records the
destination and does not clear the buffer. -/
theorem C5_link_emission : ∀ (st : ParseState) (u : String),
    processEvent st (.End .Link) =
      { st with elements := st.elements ++ [.Link st.current_text st.link_url],
                current_text := "", in_link := false, link_url := "" } ∧
    processEvent st (.Start (.Link u)) = { st with in_link := true, link_url := u } :=
  fun _ _ => ⟨rfl, rfl⟩

/-- Counterexample to claim C6 as stated: a heading that is not the first
element of the document but is preceded only by elements that render zero
lines gets no leading blank line. -/
theorem C6_counterexample :
    render_to_text [.Bold "x", .Heading 3 "Title"] =
      [[⟨"### ", darkGrayStyle⟩, ⟨"Title", headingStyle 3⟩], blankLine] ∧
    ([⟨"### ", darkGrayStyle⟩, ⟨"Title", headingStyle 3⟩] : Line) ≠ blankLine :=
  ⟨rfl, by decide⟩

/-- Claim C6 as amended: the heading renders as one line whose
concatenated text is the three hash marks, a space, and the title, with
the level-three style (green, bold); one blank line follows, and one
blank line precedes exactly when at least one line was already emitted
(so none precedes when the heading is the first element). -/
theorem C6_heading_blanks :
    (renderElement [] (.Heading 3 "Title") =
        [[⟨"### ", darkGrayStyle⟩, ⟨"Title", headingStyle 3⟩], blankLine]) ∧
    (∀ (l : Line) (ls : List Line),
        renderElement (l :: ls) (.Heading 3 "Title") =
          (l :: ls) ++
            [blankLine, [⟨"### ", darkGrayStyle⟩, ⟨"Title", headingStyle 3⟩], blankLine]) ∧
    lineText [⟨"### ", darkGrayStyle⟩, ⟨"Title", headingStyle 3⟩] = "### Title" ∧
    headingStyle 3 = ⟨some Color.Green, none, true, false, false⟩ := by
  refine ⟨rfl, ?_, rfl, rfl⟩
  intro l ls
  simp [renderElement]

/-- Claim C8: the render fold skips the Bold and Italic element variants,
contributing zero lines wherever they occur; the render operation itself
is a total function with no error channel. -/
theorem C8_unrecognized_skipped : ∀ (t : String) (pre post : List MarkdownElement),
    render_to_text (pre ++ .Bold t :: post) = render_to_text (pre ++ post) ∧
    render_to_text (pre ++ .Italic t :: post) = render_to_text (pre ++ post) := by
  intro t pre post
  constructor <;> simp [render_to_text, List.foldl_append, renderElement]

/-- Claim C10: the renderer wraps Paragraph and Text elements at the fixed
width 80; render_to_text takes no wrap-width argument. -/
theorem C10_fixed_width : ∀ (lines : List Line) (t : String),
    renderElement lines (.Paragraph t) =
      lines ++ wrap_text_with_inline_formatting t 80 ++ [blankLine] ∧
    renderElement lines (.Text t) = lines ++ wrap_text_with_inline_formatting t 80 := by
  intro lines t
  exact ⟨by simp [renderElement], rfl⟩
